import Mathlib

/-!
Label construction in `FontStyle` and GL state handling in `Primitives`.

A shallow embedding of `core/src/style/fontStyle.cpp` and
`core/src/gl/primitives.cpp`.

* `float` is IEEE-754 binary32 (`F32`): finite values with a 24-bit significand, signed
  zeros, infinities and NaN, every operation rounded to nearest, ties to even.
* `int` is a 32-bit two's-complement integer, `size_t` a 64-bit unsigned one;
  a signed overflow, an out-of-bounds `operator[]` and a null dereference are
  faults (`Fault`), so a run either returns a state or names what went wrong.
* The process-wide singletons (`LabelContainer`, `FontContext`) and the static
  `FontStyle::processedTile` are fields of one explicit `World`.
-/

namespace Tangram

/-! ## Machine integers -/

/-- Value of an integer narrowed to the 32-bit `int` (two's complement). -/
def toInt32 (z : Int) : Int := (z + 2 ^ 31) % 2 ^ 32 - 2 ^ 31

/-- Value of an integer converted to the 64-bit unsigned `size_t`. -/
def toSizeT (z : Int) : Nat := (z % 2 ^ 64).toNat

/-- Whether an integer is representable as an `int`. -/
def inIntRange (z : Int) : Bool := decide (-(2 ^ 31) ≤ z ∧ z < 2 ^ 31)

/-- The unsigned difference `size() - 1`, which wraps around for an empty container. -/
def sizeMinusOne (size : Nat) : Nat := (size + 2 ^ 64 - 1) % 2 ^ 64

/-- The ways a run of the embedded code can fail to return. -/
inductive Fault where
  | outOfFuel
  | signedOverflow
  | outOfBounds
  | nullTile
  | lockHeld
  | unlockUnheld
  deriving DecidableEq, Repr

/-! ## Single-precision floats -/

/-- Number of binary digits of `n`, by repeated halving; the first argument bounds the number
of halvings. -/
def bitLengthGo : Nat → Nat → Nat
  | 0, _ => 0
  | fuel + 1, n => if n = 0 then 0 else bitLengthGo fuel (n / 2) + 1

/-- Number of binary digits of a natural number (0 for 0). -/
def bitLength (n : Nat) : Nat := bitLengthGo n n

/-- Integer square root, one binary digit a step from digit `c - 1` down, `r` being the digits
found so far. -/
def isqrtGo (n : Nat) : Nat → Nat → Nat
  | 0, r => r
  | c + 1, r => isqrtGo n c (if (r + 2 ^ c) * (r + 2 ^ c) ≤ n then r + 2 ^ c else r)

/-- Integer square root: the largest `r` with `r * r ≤ n`. -/
def isqrt (n : Nat) : Nat := isqrtGo n (bitLength n / 2 + 1) 0

/-- A binary32 value. A finite one is `(-1)^neg * m * 2^e`, kept as the format stores it: normal
with `2^23 ≤ m < 2^24` and `-149 ≤ e ≤ 104`, or subnormal (zero included) with `e = -149` and
`m < 2^23`. -/
inductive F32 where
  | finite (neg : Bool) (m : Nat) (e : Int)
  | inf (neg : Bool)
  | nan
  deriving DecidableEq, Repr

namespace F32

/-- Rounding to binary32, to nearest and ties to even, of the magnitude `n * 2^e`, or of a
magnitude strictly between `n * 2^e` and `(n + 1) * 2^e` when `sticky` is set (`n` then has at
least 26 digits). A result past the largest finite value is an infinity. -/
def roundBits (neg : Bool) (n : Nat) (sticky : Bool) (e : Int) : F32 :=
  if n = 0 then .finite neg 0 (-149)
  else
    let d : Int := max ((bitLength n : Int) - 24) (-149 - e)
    if d ≤ 0 then
      if e + d > 104 then .inf neg else .finite neg (n * 2 ^ (-d).toNat) (e + d)
    else
      let k := d.toNat
      let q := n / 2 ^ k
      let r := n % 2 ^ k
      let half := 2 ^ (k - 1)
      let up : Bool :=
        decide (half < r) || (decide (r = half) && (sticky || decide (q % 2 = 1)))
      let m := if up then q + 1 else q
      let m1 := if m = 2 ^ 24 then 2 ^ 23 else m
      let e1 := if m = 2 ^ 24 then e + d + 1 else e + d
      if e1 > 104 then .inf neg else .finite neg m1 e1

/-- Conversion of an `int` to `float`. -/
def ofInt (z : Int) : F32 := roundBits (decide (z < 0)) z.natAbs false 0

/-- Conversion of a natural number to `float`. -/
def ofNat (n : Nat) : F32 := roundBits false n false 0

instance (n : Nat) : OfNat F32 n := ⟨ofNat n⟩

/-- Negation: the sign is flipped. -/
def neg : F32 → F32
  | .finite s m e => .finite (!s) m e
  | .inf s => .inf (!s)
  | .nan => .nan

/-- The integer `m` with the sign `s`. -/
def signed (s : Bool) (m : Nat) : Int := if s then -(m : Int) else (m : Int)

/-- Addition: the exact sum, rounded; an exact zero is negative only when both operands are. -/
def add : F32 → F32 → F32
  | .nan, _ => .nan
  | _, .nan => .nan
  | .inf s, .inf t => if s = t then .inf s else .nan
  | .inf s, .finite _ _ _ => .inf s
  | .finite _ _ _, .inf t => .inf t
  | .finite s m e, .finite t k f =>
    let lo := min e f
    let sum : Int := signed s m * 2 ^ (e - lo).toNat + signed t k * 2 ^ (f - lo).toNat
    if sum = 0 then .finite (s && t) 0 (-149)
    else roundBits (decide (sum < 0)) sum.natAbs false lo

/-- Subtraction: addition of the negated second operand. -/
def sub (a b : F32) : F32 := add a (neg b)

/-- Multiplication: the exact product, rounded. -/
def mul : F32 → F32 → F32
  | .nan, _ => .nan
  | _, .nan => .nan
  | .inf s, .inf t => .inf (xor s t)
  | .inf s, .finite t k _ => if k = 0 then .nan else .inf (xor s t)
  | .finite s m _, .inf t => if m = 0 then .nan else .inf (xor s t)
  | .finite s m e, .finite t k f => roundBits (xor s t) (m * k) false (e + f)

/-- Division: the exact quotient, rounded; the quotient is taken to 26 digits or more with the
remainder as sticky bit. Zero by zero is NaN, anything else by zero an infinity. -/
def div : F32 → F32 → F32
  | .nan, _ => .nan
  | _, .nan => .nan
  | .inf _, .inf _ => .nan
  | .inf s, .finite t _ _ => .inf (xor s t)
  | .finite s _ _, .inf t => .finite (xor s t) 0 (-149)
  | .finite s m e, .finite t k f =>
    if k = 0 then (if m = 0 then .nan else .inf (xor s t))
    else
      let sh := bitLength k + 26
      roundBits (xor s t) (m * 2 ^ sh / k) (decide (m * 2 ^ sh % k ≠ 0)) (e - f - sh)

/-- Square root: the exact root, rounded; the root is taken to 26 digits or more with the
remainder as sticky bit. The root of a negative value is NaN, that of a zero the zero. -/
def sqrt : F32 → F32
  | .nan => .nan
  | .inf s => if s then .nan else .inf false
  | .finite s m e =>
    if m = 0 then .finite s 0 (-149)
    else if s then .nan
    else
      let odd := decide (e % 2 ≠ 0)
      let big := (if odd then 2 * m else m) * 2 ^ 52
      let r := isqrt big
      roundBits false r (decide (r * r ≠ big)) ((if odd then e - 1 else e) / 2 - 26)

/-- The comparison `a < b`, false when either side is NaN. -/
def lt : F32 → F32 → Bool
  | .nan, _ => false
  | _, .nan => false
  | .inf s, .inf t => s && !t
  | .inf s, .finite _ _ _ => s
  | .finite _ _ _, .inf t => !t
  | .finite s m e, .finite t k f =>
    let lo := min e f
    decide (signed s m * 2 ^ (e - lo).toNat < signed t k * 2 ^ (f - lo).toNat)

instance : Add F32 := ⟨add⟩
instance : Sub F32 := ⟨sub⟩
instance : Mul F32 := ⟨mul⟩
instance : Div F32 := ⟨div⟩
instance : Neg F32 := ⟨neg⟩

/-- The rational number a finite value stands for (0 for an infinity and for NaN). -/
def toRat : F32 → ℚ
  | .finite s m e => (if s then -1 else 1) * (m : ℚ) * (2 : ℚ) ^ e
  | _ => 0

end F32

/-! ## Geometry -/

/-- The `glm::vec2` of the source. -/
structure Vec2 where
  x : F32
  y : F32
  deriving DecidableEq, Repr

/-- The `glm::vec3` of the source. -/
structure Vec3 where
  x : F32
  y : F32
  z : F32
  deriving DecidableEq, Repr

/-- The conversion `glm::vec2(v)` of a `glm::vec3`: the third coordinate is dropped. -/
def Vec3.toVec2 (v : Vec3) : Vec2 := ⟨v.x, v.y⟩

/-- Componentwise `float` difference `a - b` of two `glm::vec2`. -/
def Vec2.sub (a b : Vec2) : Vec2 := ⟨a.x - b.x, a.y - b.y⟩

/-- The function `glm::dot(a, b)` on `glm::vec2`: the two products, then their sum. -/
def Vec2.dot (a b : Vec2) : F32 := a.x * b.x + a.y * b.y

/-- The function `glm::length(v)`: the square root of `dot(v, v)`. -/
def Vec2.length (v : Vec2) : F32 := F32.sqrt (v.dot v)

abbrev Point := Vec3
abbrev Line := List Point
abbrev Polygon := List Line

/-! ## The sampling loop of `buildLine` -/

/-- The statements `int lineLength = _line.size(); int skipOffset = floor(lineLength / 2);`:
the size is narrowed to `int`, halved by the truncating integer division, and `floor` of an
integral value changes nothing. -/
def skipOffsetOf (size : Nat) : Int := (toInt32 (size : Int)).tdiv 2

/-- The constant `float minLength = 0.15`: the binary32 value nearest to 0.15, which is
`5033165 / 33554432`. -/
def minLength : F32 := .finite false 10066330 (-26)

/-- One pass of the loop body up to the length test: the index and the two points read. -/
structure Sample where
  index : Int
  p1 : Vec2
  p2 : Vec2
  deriving DecidableEq, Repr

/-- The loop `for (int i = 0; i < _line.size() - 1; i += skipOffset)` started at `i`, with the
reads `_line[i]` and `_line[i + 1]` of its body: the segments it visits, in order. The
comparison converts `i` to `size_t`; `fuel` bounds the number of header evaluations. -/
def sampleLoop (line : Line) (skipOffset : Int) : Nat → Int → Except Fault (List Sample)
  | 0, _ => .error .outOfFuel
  | fuel + 1, i =>
    if toSizeT i < sizeMinusOne line.length then
      if inIntRange (i + 1) then
        match line.get? (toSizeT i), line.get? (toSizeT (i + 1)) with
        | some a, some b =>
          if inIntRange (i + skipOffset) then
            (sampleLoop line skipOffset fuel (i + skipOffset)).map
              (fun rest => ⟨i, a.toVec2, b.toVec2⟩ :: rest)
          else .error .signedOverflow
        | _, _ => .error .outOfBounds
      else .error .signedOverflow
    else .ok []

/-- The segments visited by the loop of `buildLine` on a line, from `i = 0`. The fuel exceeds
the number of passes of any run that advances. -/
def sampledSegments (line : Line) : Except Fault (List Sample) :=
  sampleLoop line (skipOffsetOf line.length) (line.length + 2) 0

/-! ## Labels, text buffers and the font context -/

abbrev TileID := Nat

/-- A label request as `LabelContainer::addLabel` receives it: tile id, style name, the pair of
anchor points and the text. -/
structure Label where
  tileID : TileID
  styleName : String
  anchor : Vec2 × Vec2
  text : String
  deriving DecidableEq, Repr

/-- The member `stringProps` of `Properties`, in iteration order. -/
structure Properties where
  stringProps : List (String × String)
  deriving DecidableEq, Repr

/-- Modelled from the spec: the `TextBuffer` class (not among the sources), as the stream of
shaped vertex floats it has accumulated, their vertex count, and whether `init()` has run. -/
structure TextBuffer where
  vertices : List F32
  nVerts : Nat
  initialized : Bool
  deriving DecidableEq, Repr

/-- Modelled from the spec: the `FontContext` class (not among the sources): the current font
(name and pixel size), the signed-distance-field blur spread when that mode is on, the handle
of the current `TextBuffer` if any, and whether the mutual-exclusion lock is held. -/
structure FontContext where
  font : Option (String × F32)
  sdf : Option F32
  currentBuffer : Option Nat
  locked : Bool
  deriving DecidableEq, Repr

/-- The fields of a `FontStyle` (with `m_name` and `m_pixelScale` of its base `Style`). -/
structure FontStyle where
  fontName : String
  name : String
  fontSize : F32
  sdf : Bool
  pixelScale : F32
  deriving DecidableEq, Repr

/-- The state the functions of `fontStyle.cpp` act on: the static `FontStyle::processedTile`,
the requests the `LabelContainer` singleton has received, its `FontContext`, every `TextBuffer`
generated so far (a handle is an index), the buffer each tile has attached for this style, and
the batches appended to the output mesh. -/
structure World where
  processedTile : Option TileID
  labels : List Label
  ctx : FontContext
  buffers : List TextBuffer
  tileBuffers : List (TileID × Nat)
  mesh : List (List F32 × Nat)
  deriving DecidableEq, Repr

/-- The state at start-up: `processedTile = nullptr`, nothing registered, no current buffer,
the lock free. -/
def World.init : World :=
  { processedTile := none, labels := [], ctx := ⟨none, none, none, false⟩,
    buffers := [], tileBuffers := [], mesh := [] }

/-- The text-shaping engine, a black box: the vertex floats and vertex count it produces for a
label request under the font and signed-distance-field state then in force. -/
structure Shaper where
  shape : Option (String × F32) → Option F32 → Label → List F32 × Nat

/-- Modelled from the spec: `FontContext::setFont(name, pixelSize)`. -/
def FontContext.setFont (c : FontContext) (name : String) (size : F32) : FontContext :=
  { c with font := some (name, size) }

/-- Modelled from the spec: `FontContext::setSignedDistanceField(blurSpread)`. -/
def FontContext.setSignedDistanceField (c : FontContext) (blurSpread : F32) : FontContext :=
  { c with sdf := some blurSpread }

/-- Modelled from the spec: `FontContext::clearState()` resets the font and signed-distance-field
mode and keeps the current buffer. -/
def FontContext.clearState (c : FontContext) : FontContext :=
  { c with font := none, sdf := none }

/-- Modelled from the spec: `FontContext::useBuffer(buffer | none)`. -/
def FontContext.useBuffer (c : FontContext) (b : Option Nat) : FontContext :=
  { c with currentBuffer := b }

/-- Modelled from the spec: `FontContext::lock()`. In a sequential run a held lock never gets
released, so acquiring it again does not return. -/
def FontContext.lock (c : FontContext) : Except Fault FontContext :=
  if c.locked then .error .lockHeld else .ok { c with locked := true }

/-- Modelled from the spec: `FontContext::unlock()`, which must be paired with a `lock()`. -/
def FontContext.unlock (c : FontContext) : Except Fault FontContext :=
  if c.locked then .ok { c with locked := false } else .error .unlockUnheld

/-- Modelled from the spec: `FontContext::genTextBuffer()` allocates a fresh, empty buffer; the
result is the new store and the handle. -/
def genTextBuffer (buffers : List TextBuffer) : List TextBuffer × Nat :=
  (buffers ++ [⟨[], 0, false⟩], buffers.length)

/-- Modelled from the spec: `TextBuffer::init()`. -/
def TextBuffer.init (_b : TextBuffer) : TextBuffer := ⟨[], 0, true⟩

/-- Modelled from the spec: `TextBuffer::getVertices(&data, &n)` pulls the shaped vertices out of
the buffer: `none` (the call returns false) when none were produced. -/
def TextBuffer.getVertices (b : TextBuffer) : Option (List F32 × Nat) × TextBuffer :=
  if b.vertices.isEmpty then (none, b)
  else (some (b.vertices, b.nVerts), { b with vertices := [], nVerts := 0 })

/-- Modelled from the spec: the engine writes shaped vertices at the end of a buffer. -/
def TextBuffer.append (b : TextBuffer) (out : List F32 × Nat) : TextBuffer :=
  { b with vertices := b.vertices ++ out.1, nVerts := b.nVerts + out.2 }

/-- Modelled from the spec: `LabelContainer::addLabel(tileId, styleName, anchorPair, text)` appends
the request to the registry, and the engine shapes its glyphs into the current buffer (nothing
is shaped when no buffer is current). -/
def addLabel (sh : Shaper) (l : Label) (w : World) : World :=
  let w1 := { w with labels := w.labels ++ [l] }
  match w.ctx.currentBuffer with
  | none => w1
  | some h =>
    let out := sh.shape w.ctx.font w.ctx.sdf l
    { w1 with buffers := w.buffers.modify (fun b => b.append out) h }

/-- The call `labelContainer->addLabel(FontStyle::processedTile->getID(), m_name, anchor, text)`:
the static pointer is dereferenced, which faults when it is null. -/
def addLabelForTile (sh : Shaper) (style : FontStyle) (anchor : Vec2 × Vec2) (text : String)
    (w : World) : Except Fault World :=
  match w.processedTile with
  | none => .error .nullTile
  | some t => .ok (addLabel sh ⟨t, style.name, anchor, text⟩ w)

/-- The prologue shared by the builders after the buffer check: `setFont` with the scaled size,
then `setSignedDistanceField(2.5)` when the style is a signed-distance-field one. -/
def configure (style : FontStyle) (size : F32) (w : World) : World :=
  let w1 := { w with ctx := w.ctx.setFont style.fontName size }
  if style.sdf then { w1 with ctx := w1.ctx.setSignedDistanceField (5 / 2) } else w1

/-- The epilogue shared by the builders: `clearState()`, then the vertices `getVertices` hands
out, if any, are appended to the mesh by `addVertices`. -/
def harvest (buf : Nat) (w : World) : World :=
  let w1 := { w with ctx := w.ctx.clearState }
  match w1.buffers.get? buf with
  | none => w1
  | some b =>
    match b.getVertices with
    | (none, _) => w1
    | (some batch, b1) => { w1 with buffers := w1.buffers.set buf b1, mesh := w1.mesh ++ [batch] }

/-! ## The builders -/

/-- The function `FontStyle::buildPoint`. -/
def buildPoint (sh : Shaper) (style : FontStyle) (point : Point) (layer : String)
    (props : Properties) (w : World) : Except Fault World :=
  match w.ctx.currentBuffer with
  | none => .ok w
  | some buf =>
    let w1 := configure style (style.fontSize * style.pixelScale) w
    let labelled :=
      if layer = "pois" then
        props.stringProps.foldlM (fun acc prop =>
          if prop.1 = "name" then
            addLabelForTile sh style (point.toVec2, point.toVec2) prop.2 acc
          else .ok acc) w1
      else .ok w1
    labelled.map (harvest buf)

/-- The body of the sampling loop after its two reads: a segment shorter than `minLength` is
skipped (`continue`), any other is registered with `addLabel`. -/
def lineBody (sh : Shaper) (style : FontStyle) (text : String) (s : Sample) (w : World) :
    Except Fault World :=
  if F32.lt (s.p2.sub s.p1).length minLength then .ok w
  else addLabelForTile sh style (s.p1, s.p2) text w

/-- The function `FontStyle::buildLine`. -/
def buildLine (sh : Shaper) (style : FontStyle) (line : Line) (layer : String)
    (props : Properties) (w : World) : Except Fault World :=
  match w.ctx.currentBuffer with
  | none => .ok w
  | some buf =>
    let w1 := configure style (style.fontSize * style.pixelScale) w
    let labelled :=
      if layer = "roads" then
        props.stringProps.foldlM (fun acc prop =>
          if prop.1 = "name" then
            sampledSegments line >>= fun samples =>
              samples.foldlM (fun acc1 s => lineBody sh style prop.2 s acc1) acc
          else .ok acc) w1
      else .ok w1
    labelled.map (harvest buf)

/-- The accumulation loop at the head of `buildPolygon`: `centroid.x += p.x`, `centroid.y += p.y`
and `n++` for every point of every ring, in order, from a zero-initialised `centroid` and
`n = 0`. The additions are `float` additions; the `int` counter is kept modulo `2^32`. -/
def accumulate (polygon : Polygon) : Vec3 × Int :=
  polygon.foldl (fun acc l =>
    l.foldl (fun acc1 p =>
      (⟨acc1.1.x + p.x, acc1.1.y + p.y, acc1.1.z⟩, toInt32 (acc1.2 + 1))) acc)
    (⟨0, 0, 0⟩, 0)

/-- The statement `centroid /= n` applied to the accumulated sums: `n` is converted to `float` and
each component divided by it. -/
def centroidOf (polygon : Polygon) : Vec3 :=
  let acc := accumulate polygon
  let n := F32.ofInt acc.2
  ⟨acc.1.x / n, acc.1.y / n, acc.1.z / n⟩

/-- The function `FontStyle::buildPolygon`. The layer name is not consulted. The factor `1.5` is a
`double`; the product of a `float` and `1.5` is exact in `double`, so its conversion to `float` is
the `float` product. -/
def buildPolygon (sh : Shaper) (style : FontStyle) (polygon : Polygon) (_layer : String)
    (props : Properties) (w : World) : Except Fault World :=
  let centroid := centroidOf polygon
  match w.ctx.currentBuffer with
  | none => .ok w
  | some buf =>
    let w1 := configure style (style.fontSize * style.pixelScale * (3 / 2)) w
    let labelled :=
      props.stringProps.foldlM (fun acc prop =>
        if prop.1 = "name" then
          addLabelForTile sh style (centroid.toVec2, centroid.toVec2) prop.2 acc
        else .ok acc) w1
    labelled.map (harvest buf)

/-! ## The tile-processing bracket -/

/-- The function `FontStyle::prepareDataProcessing`: a buffer is generated and attached to the tile,
the lock is taken, the buffer is made current and initialised, and the tile becomes the
processed tile. -/
def prepareDataProcessing (tile : TileID) (w : World) : Except Fault World :=
  let gen := genTextBuffer w.buffers
  let buffer := gen.2
  let w1 := { w with buffers := gen.1, tileBuffers := (tile, buffer) :: w.tileBuffers }
  match w1.ctx.lock with
  | .error e => .error e
  | .ok c =>
    let w2 := { w1 with ctx := c.useBuffer (some buffer) }
    let w3 := { w2 with buffers := w2.buffers.modify TextBuffer.init buffer }
    .ok { w3 with processedTile := some tile }

/-- The function `FontStyle::finishDataProcessing`: the marker is cleared, then the current buffer,
then the lock is released. The tile argument is not used. -/
def finishDataProcessing (_tile : TileID) (w : World) : Except Fault World :=
  let w1 := { w with processedTile := none }
  let w2 := { w1 with ctx := w1.ctx.useBuffer none }
  match w2.ctx.unlock with
  | .error e => .error e
  | .ok c => .ok { w2 with ctx := c }

/-- Modelled from the spec: `MapTile::getTextBuffer(style)`, the buffer last attached to the tile. -/
def getTextBuffer (tile : TileID) (w : World) : Option Nat := w.tileBuffers.lookup tile

/-- One call of the tile-processing interface. -/
inductive Op where
  | prepare (tile : TileID)
  | finish (tile : TileID)
  | point (p : Point) (layer : String) (props : Properties)
  | line (l : Line) (layer : String) (props : Properties)
  | polygon (g : Polygon) (layer : String) (props : Properties)

/-- The effect of one call. -/
def step (sh : Shaper) (style : FontStyle) : Op → World → Except Fault World
  | .prepare t, w => prepareDataProcessing t w
  | .finish t, w => finishDataProcessing t w
  | .point p layer props, w => buildPoint sh style p layer props w
  | .line l layer props, w => buildLine sh style l layer props w
  | .polygon g layer props, w => buildPolygon sh style g layer props w

/-- The effect of a sequence of calls, made one after the other. -/
def run (sh : Shaper) (style : FontStyle) (ops : List Op) (w : World) : Except Fault World :=
  ops.foldlM (fun acc op => step sh style op acc) w

/-! ## Frame set-up and teardown -/

/-- The capabilities `glEnable` and `glDisable` are called with in the sources. -/
inductive Cap where
  | blend
  | depthTest
  deriving DecidableEq, Repr

/-- The part of the GL state the style touches: whether blending and depth testing are enabled,
and the blend function's source and destination factors. -/
structure GLState where
  blend : Bool
  depthTest : Bool
  blendFunc : Nat × Nat
  deriving DecidableEq, Repr

/-- The call `glEnable(cap)`. -/
def glEnable (cap : Cap) (g : GLState) : GLState :=
  match cap with
  | .blend => { g with blend := true }
  | .depthTest => { g with depthTest := true }

/-- The call `glDisable(cap)`. -/
def glDisable (cap : Cap) (g : GLState) : GLState :=
  match cap with
  | .blend => { g with blend := false }
  | .depthTest => { g with depthTest := false }

/-- The call `glBlendFunc(sfactor, dfactor)`. -/
def glBlendFunc (sfactor dfactor : Nat) (g : GLState) : GLState :=
  { g with blendFunc := (sfactor, dfactor) }

/-- The value of `GL_SRC_ALPHA`. -/
def GL_SRC_ALPHA : Nat := 0x0302

/-- The value of `GL_ONE_MINUS_SRC_ALPHA`. -/
def GL_ONE_MINUS_SRC_ALPHA : Nat := 0x0303

/-- What `setupFrame` reads from its collaborators: the view's width and height, the texture slot
of the atlas and the projection matrix the font context hands out. -/
structure FrameInput where
  width : F32
  height : F32
  atlasSlot : Nat
  projection : List F32
  deriving DecidableEq, Repr

/-- The state a draw pass of the style acts on: the GL flags, the screen size held by the font
context, whether the atlas is bound, and the uniforms written to the shader program. -/
structure Frame where
  gl : GLState
  screenSize : F32 × F32
  atlasBound : Bool
  uniforms : List (String × List F32)
  deriving DecidableEq, Repr

/-- The function `FontStyle::setupFrame`: screen size, atlas, the four uniforms, then blending on
with the alpha blend function and depth testing off. -/
def setupFrame (v : FrameInput) (f : Frame) : Frame :=
  let f1 := { f with screenSize := (v.width, v.height) }
  let f2 := { f1 with atlasBound := true }
  let f3 := { f2 with uniforms := f2.uniforms ++
    [("u_tex", [F32.ofNat v.atlasSlot]), ("u_resolution", [v.width, v.height]),
     ("u_color", [1, 1, 1]), ("u_proj", v.projection)] }
  let g1 := glEnable .blend f3.gl
  let g2 := glBlendFunc GL_SRC_ALPHA GL_ONE_MINUS_SRC_ALPHA g1
  { f3 with gl := glDisable .depthTest g2 }

/-- The function `FontStyle::teardown`: blending off, depth testing on. -/
def teardown (f : Frame) : Frame :=
  { f with gl := glEnable .depthTest (glDisable .blend f.gl) }

/-! ## Debug primitives -/

/-- Modelled from the spec: the `RenderState` class (not among the sources), as the GL state it
tracks: the depth-test flag, the buffer bound to `GL_ARRAY_BUFFER` and the program in use. -/
structure RenderState where
  depthTest : Bool
  vertexBuffer : Nat
  shaderProgram : Nat
  deriving DecidableEq, Repr

/-- The statics of `primitives.cpp` that change after start-up, the program handle of `s_shader`,
and the number of draw calls issued. -/
structure Primitives where
  s_initialized : Bool
  s_boundBuffer : Nat
  shaderHandle : Nat
  drawCalls : Nat
  deriving DecidableEq, Repr

/-- The function `Primitives::init`, the lazy initialisation. -/
def Primitives.init (s : Primitives) : Primitives :=
  if s.s_initialized then s else { s with s_initialized := true }

/-- The function `Primitives::saveState`: the array-buffer binding is read into `s_boundBuffer`, then
depth testing is switched off and buffer 0 is bound. -/
def saveState (s : Primitives) (rs : RenderState) : Primitives × RenderState :=
  let s1 := { s with s_boundBuffer := rs.vertexBuffer }
  let rs1 := { rs with depthTest := false }
  (s1, { rs1 with vertexBuffer := 0 })

/-- The function `Primitives::popState`: the buffer saved in `s_boundBuffer` is bound again. -/
def popState (s : Primitives) (rs : RenderState) : Primitives × RenderState :=
  (s, { rs with vertexBuffer := s.s_boundBuffer })

/-- The function `Primitives::drawLine` (and `drawPoly`, which differs in the vertices drawn only):
`init`, `saveState`, the shader is put in use and the vertices drawn, `popState`. -/
def drawLine (s : Primitives) (rs : RenderState) : Primitives × RenderState :=
  let s1 := s.init
  let (s2, rs2) := saveState s1 rs
  let rs3 := { rs2 with shaderProgram := s2.shaderHandle }
  let s3 := { s2 with drawCalls := s2.drawCalls + 1 }
  popState s3 rs3

/-! ## Reference descriptions and sample data -/

/-- The indices the sampling is described by: `0, skipOffset, 2 * skipOffset, ...` with
`skipOffset = floor(pointCount / 2)`, for as long as the index is below `pointCount - 1`. -/
def steppedIndices (pointCount : Nat) : List Nat :=
  (List.iterate (fun i => i + pointCount / 2) 0 pointCount).takeWhile
    (fun i => decide (i < pointCount - 1))

/-- The unweighted average of the points of all rings in exact arithmetic: the sums of the x and
of the y coordinates of every point over the number of points. -/
def vertexAverage (polygon : Polygon) : ℚ × ℚ :=
  (((polygon.flatten.map (fun p => p.x.toRat)).sum) / (polygon.flatten.length : ℚ),
   ((polygon.flatten.map (fun p => p.y.toRat)).sum) / (polygon.flatten.length : ℚ))

/-- The unweighted average of the points of all rings in `float` arithmetic: the x and the y
coordinates of every point are added one after the other to zero, each sum rounded, and the two
totals divided by the number of points converted to `float`. -/
def floatAverage (polygon : Polygon) : Vec2 :=
  ⟨(polygon.flatten.foldl (fun a p => a + p.x) 0) / F32.ofNat polygon.flatten.length,
   (polygon.flatten.foldl (fun a p => a + p.y) 0) / F32.ofNat polygon.flatten.length⟩

/-- The square of the Euclidean distance of two points in exact arithmetic. -/
def exactLengthSq (p1 p2 : Vec2) : ℚ :=
  (p2.x.toRat - p1.x.toRat) ^ 2 + (p2.y.toRat - p1.y.toRat) ^ 2

/-- The triangle ring (0,0), (1,0), (0,1). -/
def triangle : Polygon := [[⟨0, 0, 0⟩, ⟨1, 0, 0⟩, ⟨0, 1, 0⟩]]

/-- A point at exact distance below 0.15 from the origin whose `float` length is `minLength`. -/
def nearBelow : Vec2 := ⟨.finite false 9426520 (-26), .finite false 14126124 (-28)⟩

/-- A point at exact distance above 0.15 from the origin whose `float` length is the `float`
just below `minLength`. -/
def nearAbove : Vec2 := ⟨.finite false 9743234 (-26), .finite false 10119592 (-28)⟩

/-- A shaping engine for the examples: one vertex float per character of the text. -/
def shaper0 : Shaper := ⟨fun _ _ l => (List.replicate l.text.length 1, l.text.length)⟩

/-- A style for the examples. -/
def style0 : FontStyle := ⟨"Roboto", "labels", 12, true, 2⟩

/-- The state right after `prepareDataProcessing` on tile 7 from start-up. -/
def world7 : World :=
  { processedTile := some 7, labels := [], ctx := ⟨none, none, some 0, true⟩,
    buffers := [⟨[], 0, true⟩], tileBuffers := [(7, 0)], mesh := [] }

/-- The state after `prepareDataProcessing` on tile 7 and `buildPoint` of a point of layer `"pois"`
named `"Cafe"`, run from start-up with `shaper0` and `style0`. -/
def worldCafe : World :=
  { processedTile := some 7, labels := [⟨7, "labels", (⟨1, 2⟩, ⟨1, 2⟩), "Cafe"⟩],
    ctx := ⟨none, none, some 0, true⟩, buffers := [⟨[], 0, true⟩], tileBuffers := [(7, 0)],
    mesh := [([1, 1, 1, 1], 4)] }

/-- A line of five points along the x axis, one unit apart. -/
def line5 : Line := [⟨0, 0, 0⟩, ⟨1, 0, 0⟩, ⟨2, 0, 0⟩, ⟨3, 0, 0⟩, ⟨4, 0, 0⟩]

/-- The square ring (0,0), (2,0), (2,2), (0,2). -/
def square : Polygon := [[⟨0, 0, 0⟩, ⟨2, 0, 0⟩, ⟨2, 2, 0⟩, ⟨0, 2, 0⟩]]

/-- The fields the tile-processing bracket owns: the marker, the current buffer, the lock and
the buffers attached to tiles. -/
def bracketFields (w : World) : Option TileID × Option Nat × Bool × List (TileID × Nat) :=
  (w.processedTile, w.ctx.currentBuffer, w.ctx.locked, w.tileBuffers)

/-- The relation between the marker, the lock and the current buffer: the marker is set exactly
when the lock is held and exactly when a buffer is current, and that buffer is then the one
attached to the marked tile. -/
def BracketInv (w : World) : Prop :=
  (w.processedTile ≠ none ↔ w.ctx.locked = true) ∧
  (w.processedTile ≠ none ↔ w.ctx.currentBuffer ≠ none) ∧
  ∀ t, w.processedTile = some t → w.ctx.currentBuffer = getTextBuffer t w

/-- A frame state with blending on and depth testing off. -/
def frame0 : Frame := ⟨⟨true, false, (1, 0)⟩, (0, 0), false, []⟩

/-- A view of 800 by 600 with the atlas in slot 0 and an empty projection. -/
def view0 : FrameInput := ⟨800, 600, 0, []⟩

/-- A render state with depth testing on and buffer 7 bound. -/
def renderState0 : RenderState := ⟨true, 7, 3⟩

/-- The statics of the primitives before their first use. -/
def primitives0 : Primitives := ⟨false, 0, 5, 0⟩

/-! ## Arithmetic of the loop header -/

theorem toSizeT_natCast (k : Nat) (h : k < 2 ^ 64) : toSizeT (k : Int) = k := by
  unfold toSizeT
  have h1 : ((k : Int)) % 2 ^ 64 = (k : Int) := by
    apply Int.emod_eq_of_lt <;> omega
  rw [h1]; simp

theorem sizeMinusOne_pos (n : Nat) (h1 : 1 ≤ n) (h : n < 2 ^ 64) : sizeMinusOne n = n - 1 := by
  unfold sizeMinusOne
  omega

theorem skipOffsetOf_small (n : Nat) (h : n < 2 ^ 31) :
    skipOffsetOf n = ((n / 2 : Nat) : Int) := by
  unfold skipOffsetOf toInt32
  have h1 : ((n : Int) + 2 ^ 31) % 2 ^ 32 = (n : Int) + 2 ^ 31 := by
    apply Int.emod_eq_of_lt <;> omega
  rw [h1]
  simp only [add_sub_cancel_right]
  rfl

theorem inIntRange_natCast (k : Nat) (h : k < 2 ^ 31) : inIntRange (k : Int) = true := by
  unfold inIntRange
  simp
  omega

/-- One pass of the loop at a non-negative index inside the line. -/
theorem sampleLoop_pass (line : Line) (s : Int) (fuel k : Nat) (a b : Point)
    (hlen : line.length < 2 ^ 31) (hk : k + 1 < line.length)
    (ha : line.get? k = some a) (hb : line.get? (k + 1) = some b)
    (hs : inIntRange ((k : Int) + s) = true) :
    sampleLoop line s (fuel + 1) (k : Int) =
      (sampleLoop line s fuel ((k : Int) + s)).map
        (fun rest => ⟨(k : Int), a.toVec2, b.toVec2⟩ :: rest) := by
  have h1 : toSizeT (k : Int) = k := toSizeT_natCast k (by omega)
  have h2 : toSizeT ((k : Int) + 1) = k + 1 := by
    have := toSizeT_natCast (k + 1) (by omega)
    simpa using this
  have h3 : sizeMinusOne line.length = line.length - 1 :=
    sizeMinusOne_pos _ (by omega) (by omega)
  have h4 : inIntRange ((k : Int) + 1) = true := by
    have := inIntRange_natCast (k + 1) (by omega)
    simpa using this
  have h5 : k < line.length - 1 := by omega
  rw [sampleLoop]
  simp only [h1, h2, h3, h4, h5, ha, hb, hs, if_true]

/-- The loop stops at a non-negative index at or past the last point. -/
theorem sampleLoop_stop (line : Line) (s : Int) (fuel k : Nat)
    (hlen : line.length < 2 ^ 31) (hpos : 1 ≤ line.length) (hk : line.length - 1 ≤ k)
    (hk2 : k < 2 ^ 32) :
    sampleLoop line s (fuel + 1) (k : Int) = .ok [] := by
  have h1 : toSizeT (k : Int) = k := toSizeT_natCast k (by omega)
  have h3 : sizeMinusOne line.length = line.length - 1 :=
    sizeMinusOne_pos _ hpos (by omega)
  have h5 : ¬ k < line.length - 1 := by omega
  rw [sampleLoop]
  simp only [h1, h3, h5, if_false]

theorem steppedIndices_one : steppedIndices 1 = [] := by decide

theorem steppedIndices_two : steppedIndices 2 = [0] := by decide

theorem steppedIndices_of_three (n : Nat) (h : 3 ≤ n) : steppedIndices n = [0, n / 2] := by
  obtain ⟨m, rfl⟩ : ∃ m, n = m + 3 := ⟨n - 3, by omega⟩
  unfold steppedIndices
  have h2 : (m + 3) / 2 < m + 2 := by omega
  have h3 : ¬ ((m + 3) / 2 + (m + 3) / 2 < m + 2) := by omega
  simp [List.iterate, List.takeWhile, h2, h3]

/-- What the loop does on a line of at least one point whose size fits an `int`: with three units
of fuel or more it returns, the indices visited are the stepped ones, each visit reads two
points inside the line, there are at most two visits, and the step is positive when there is
one. -/
theorem sampleLoop_result (line : Line) (h1 : 1 ≤ line.length) (hlen : line.length < 2 ^ 31) :
    ∃ samples : List Sample,
      (∀ fuel, sampleLoop line (skipOffsetOf line.length) (fuel + 3) 0 = .ok samples) ∧
      samples.map Sample.index = (steppedIndices line.length).map Int.ofNat ∧
      (∀ s ∈ samples, ∃ k : Nat, s.index = (k : Int) ∧ k + 1 < line.length ∧
        (line.get? k).map Vec3.toVec2 = some s.p1 ∧
        (line.get? (k + 1)).map Vec3.toVec2 = some s.p2) ∧
      samples.length ≤ 2 ∧ (samples ≠ [] → 1 ≤ skipOffsetOf line.length) := by
  rw [skipOffsetOf_small _ hlen]
  rcases Nat.lt_or_ge line.length 3 with hsmall | h3
  · rcases Nat.lt_or_ge line.length 2 with hone | h2
    · -- a single point: the loop is not entered
      have e1 : line.length = 1 := by omega
      refine ⟨[], ?_, ?_, ?_, ?_, ?_⟩
      · intro fuel
        have := sampleLoop_stop line ((line.length / 2 : Nat) : Int) (fuel + 2) 0 hlen h1
          (by omega) (by norm_num)
        simpa using this
      · rw [e1, steppedIndices_one]; rfl
      · intro s hs; cases hs
      · simp
      · intro h; exact absurd rfl h
    · -- two points: one visit
      have e2 : line.length = 2 := by omega
      obtain ⟨a, ha⟩ : ∃ a, line.get? 0 = some a := ⟨_, List.get?_eq_get (by omega)⟩
      obtain ⟨b, hb⟩ : ∃ b, line.get? 1 = some b := ⟨_, List.get?_eq_get (by omega)⟩
      refine ⟨[⟨0, a.toVec2, b.toVec2⟩], ?_, ?_, ?_, ?_, ?_⟩
      · intro fuel
        have p0 := sampleLoop_pass line ((line.length / 2 : Nat) : Int) (fuel + 2) 0 a b hlen
          (by omega) ha hb (by rw [e2]; decide)
        have p1 := sampleLoop_stop line ((line.length / 2 : Nat) : Int) (fuel + 1) 1 hlen h1
          (by omega) (by norm_num)
        have e3 : ((0 : Nat) : Int) + ((line.length / 2 : Nat) : Int) = ((1 : Nat) : Int) := by
          rw [e2]; rfl
        rw [e3] at p0
        rw [p1] at p0
        simpa using p0
      · rw [e2, steppedIndices_two]; rfl
      · intro s hs
        simp only [List.mem_singleton] at hs
        subst hs
        exact ⟨0, rfl, by omega, by rw [ha]; rfl, by rw [hb]; rfl⟩
      · simp
      · intro _; rw [e2]; decide
  · -- three points or more: visits at 0 and at the step
    obtain ⟨a, ha⟩ : ∃ a, line.get? 0 = some a := ⟨_, List.get?_eq_get (by omega)⟩
    obtain ⟨b, hb⟩ : ∃ b, line.get? 1 = some b := ⟨_, List.get?_eq_get (by omega)⟩
    obtain ⟨c, hc⟩ : ∃ c, line.get? (line.length / 2) = some c :=
      ⟨_, List.get?_eq_get (by omega)⟩
    obtain ⟨d, hd⟩ : ∃ d, line.get? (line.length / 2 + 1) = some d :=
      ⟨_, List.get?_eq_get (by omega)⟩
    refine ⟨[⟨0, a.toVec2, b.toVec2⟩,
      ⟨((line.length / 2 : Nat) : Int), c.toVec2, d.toVec2⟩], ?_, ?_, ?_, ?_, ?_⟩
    · intro fuel
      have p0 := sampleLoop_pass line ((line.length / 2 : Nat) : Int) (fuel + 2) 0 a b hlen
        (by omega) ha hb (by
          have := inIntRange_natCast (line.length / 2) (by omega)
          simpa using this)
      have p1 := sampleLoop_pass line ((line.length / 2 : Nat) : Int) (fuel + 1)
        (line.length / 2) c d hlen (by omega) hc hd (by
          have := inIntRange_natCast (line.length / 2 + line.length / 2) (by omega)
          simpa using this)
      have p2 := sampleLoop_stop line ((line.length / 2 : Nat) : Int) fuel
        (line.length / 2 + line.length / 2) hlen (by omega) (by omega) (by omega)
      simp only [Nat.cast_zero, zero_add, Nat.cast_add] at p0 p1 p2 ⊢
      rw [p0, p1, p2]
      rfl
    · rw [steppedIndices_of_three _ h3]; rfl
    · intro s hs
      simp only [List.mem_cons, List.mem_singleton, List.not_mem_nil, or_false] at hs
      rcases hs with rfl | rfl
      · exact ⟨0, rfl, by omega, by rw [ha]; rfl, by rw [hb]; rfl⟩
      · exact ⟨line.length / 2, rfl, by omega, by rw [hc]; rfl, by rw [hd]; rfl⟩
    · simp
    · intro _
      have : 1 ≤ line.length / 2 := by omega
      exact_mod_cast this

/-- The same result for the fuel `buildLine` runs the loop with. -/
theorem sampledSegments_result (line : Line) (h1 : 1 ≤ line.length)
    (hlen : line.length < 2 ^ 31) (samples : List Sample)
    (h : ∀ fuel, sampleLoop line (skipOffsetOf line.length) (fuel + 3) 0 = .ok samples) :
    sampledSegments line = .ok samples := by
  unfold sampledSegments
  obtain ⟨m, hm⟩ : ∃ m, line.length = m + 1 := ⟨line.length - 1, by omega⟩
  have := h m
  rw [show line.length + 2 = m + 3 by omega]
  exact this


/-! ## The polygon centroid -/

theorem toInt32_id (z : Int) (h1 : -(2 ^ 31) ≤ z) (h2 : z < 2 ^ 31) : toInt32 z = z := by
  unfold toInt32
  have h : (z + 2 ^ 31) % 2 ^ 32 = z + 2 ^ 31 := by
    apply Int.emod_eq_of_lt <;> omega
  rw [h]
  omega

theorem ofInt_natCast (n : Nat) : F32.ofInt (n : Int) = F32.ofNat n := by
  unfold F32.ofInt F32.ofNat
  have h : decide ((n : Int) < 0) = false := by
    simp
  rw [h, Int.natAbs_ofNat]

/-- The loop over one ring: the sums grow by the ring's coordinates in order, the counter by
the ring's length, as long as the counter stays an `int`. -/
theorem accumulate_ring (l : Line) (acc : Vec3 × Int) (h0 : 0 ≤ acc.2)
    (h : acc.2 + (l.length : Int) < 2 ^ 31) :
    l.foldl (fun acc1 p =>
        ((⟨acc1.1.x + p.x, acc1.1.y + p.y, acc1.1.z⟩ : Vec3), toInt32 (acc1.2 + 1))) acc =
      (⟨l.foldl (fun a p => a + p.x) acc.1.x, l.foldl (fun a p => a + p.y) acc.1.y, acc.1.z⟩,
        acc.2 + (l.length : Int)) := by
  induction l generalizing acc with
  | nil => simp
  | cons p l ih =>
    simp only [List.length_cons, Nat.cast_add, Nat.cast_one] at h
    have hstep : toInt32 (acc.2 + 1) = acc.2 + 1 := toInt32_id _ (by omega) (by omega)
    rw [List.foldl_cons, ih _ (by simp only [hstep]; omega) (by simp only [hstep]; omega)]
    simp only [hstep, List.foldl_cons, List.length_cons, Nat.cast_add, Nat.cast_one]
    congr 1
    omega

/-- The loop over all rings is one pass over the points of all rings. -/
theorem accumulate_rings (g : Polygon) (acc : Vec3 × Int) (h0 : 0 ≤ acc.2)
    (h : acc.2 + (g.flatten.length : Int) < 2 ^ 31) :
    g.foldl (fun acc0 l =>
      l.foldl (fun acc1 p =>
        ((⟨acc1.1.x + p.x, acc1.1.y + p.y, acc1.1.z⟩ : Vec3), toInt32 (acc1.2 + 1))) acc0) acc =
      (⟨g.flatten.foldl (fun a p => a + p.x) acc.1.x,
        g.flatten.foldl (fun a p => a + p.y) acc.1.y, acc.1.z⟩,
        acc.2 + (g.flatten.length : Int)) := by
  induction g generalizing acc with
  | nil => simp
  | cons l g ih =>
    simp only [List.flatten_cons, List.length_append, Nat.cast_add] at h
    rw [List.foldl_cons, accumulate_ring l acc h0 (by omega),
      ih _ (by simp only; omega) (by simp only; omega)]
    simp only [List.flatten_cons, List.foldl_append, List.length_append, Nat.cast_add]
    congr 1
    omega

theorem accumulate_count (g : Polygon) (h : g.flatten.length < 2 ^ 31) :
    (accumulate g).2 = (g.flatten.length : Int) := by
  unfold accumulate
  rw [accumulate_rings g _ (by simp) (by simp only; omega)]
  simp

theorem centroidOf_eq_floatAverage (g : Polygon) (h : g.flatten.length < 2 ^ 31) :
    (centroidOf g).toVec2 = floatAverage g := by
  have hc := accumulate_count g h
  unfold centroidOf floatAverage Vec3.toVec2
  simp only [hc, ofInt_natCast]
  unfold accumulate
  rw [accumulate_rings g _ (by simp) (by simp only; omega)]

/-! ## Effects of the builders -/

theorem bind_eq_ok {α β : Type} (x : Except Fault α) (f : α → Except Fault β) (b : β)
    (h : (x >>= f) = .ok b) : ∃ a, x = .ok a ∧ f a = .ok b := by
  cases x with
  | error e => cases h
  | ok a => exact ⟨a, rfl, h⟩

theorem map_eq_ok {α β : Type} (x : Except Fault α) (f : α → β) (b : β)
    (h : x.map f = .ok b) : ∃ a, x = .ok a ∧ b = f a := by
  cases x with
  | error e => cases h
  | ok a =>
    cases h
    exact ⟨a, rfl, rfl⟩

/-- A fold of fallible steps keeps whatever every step keeps. -/
theorem foldlM_keeps {α β : Type} (P : World → β) (f : World → α → Except Fault World)
    (hf : ∀ w a w', f w a = .ok w' → P w' = P w) :
    ∀ (l : List α) (w w' : World), l.foldlM f w = .ok w' → P w' = P w := by
  intro l
  induction l with
  | nil =>
    intro w w' h
    cases h
    rfl
  | cons a l ih =>
    intro w w' h
    rw [List.foldlM_cons] at h
    obtain ⟨w1, h1, h2⟩ := bind_eq_ok _ _ _ h
    rw [ih w1 w' h2, hf w a w1 h1]

theorem addLabel_bracket (sh : Shaper) (l : Label) (w : World) :
    bracketFields (addLabel sh l w) = bracketFields w := by
  unfold addLabel bracketFields
  simp only
  split <;> rfl

theorem addLabel_labels (sh : Shaper) (l : Label) (w : World) :
    (addLabel sh l w).labels = w.labels ++ [l] := by
  unfold addLabel
  simp only
  split <;> rfl

theorem addLabelForTile_bracket (sh : Shaper) (style : FontStyle) (anchor : Vec2 × Vec2)
    (text : String) (w w' : World) (h : addLabelForTile sh style anchor text w = .ok w') :
    bracketFields w' = bracketFields w := by
  unfold addLabelForTile at h
  cases ht : w.processedTile with
  | none => rw [ht] at h; cases h
  | some t =>
    rw [ht] at h
    cases h
    exact addLabel_bracket _ _ _

theorem configure_bracket (style : FontStyle) (size : F32) (w : World) :
    bracketFields (configure style size w) = bracketFields w := by
  unfold configure bracketFields
  cases style.sdf <;> rfl

theorem configure_labels (style : FontStyle) (size : F32) (w : World) :
    (configure style size w).labels = w.labels := by
  unfold configure
  cases style.sdf <;> rfl

theorem harvest_bracket (buf : Nat) (w : World) :
    bracketFields (harvest buf w) = bracketFields w := by
  unfold harvest bracketFields
  simp only
  split
  · rfl
  · split <;> rfl

theorem harvest_labels (buf : Nat) (w : World) : (harvest buf w).labels = w.labels := by
  unfold harvest
  simp only
  split
  · rfl
  · split <;> rfl

theorem lineBody_bracket (sh : Shaper) (style : FontStyle) (text : String) (s : Sample)
    (w w' : World) (h : lineBody sh style text s w = .ok w') :
    bracketFields w' = bracketFields w := by
  unfold lineBody at h
  split at h
  · cases h; rfl
  · exact addLabelForTile_bracket _ _ _ _ _ _ h

theorem buildPoint_bracket (sh : Shaper) (style : FontStyle) (p : Point) (layer : String)
    (props : Properties) (w w' : World) (h : buildPoint sh style p layer props w = .ok w') :
    bracketFields w' = bracketFields w := by
  unfold buildPoint at h
  split at h
  · cases h; rfl
  · obtain ⟨w2, h2, h3⟩ := map_eq_ok _ _ _ h
    subst h3
    rw [harvest_bracket]
    split at h2
    · rw [foldlM_keeps bracketFields _ _ _ _ _ h2, configure_bracket]
      intro v a v' hv
      split at hv
      · exact addLabelForTile_bracket _ _ _ _ _ _ hv
      · cases hv; rfl
    · cases h2
      exact configure_bracket _ _ _

theorem buildLine_bracket (sh : Shaper) (style : FontStyle) (l : Line) (layer : String)
    (props : Properties) (w w' : World) (h : buildLine sh style l layer props w = .ok w') :
    bracketFields w' = bracketFields w := by
  unfold buildLine at h
  split at h
  · cases h; rfl
  · obtain ⟨w2, h2, h3⟩ := map_eq_ok _ _ _ h
    subst h3
    rw [harvest_bracket]
    split at h2
    · rw [foldlM_keeps bracketFields _ _ _ _ _ h2, configure_bracket]
      intro v a v' hv
      split at hv
      · obtain ⟨samples, _, hs⟩ := bind_eq_ok _ _ _ hv
        exact foldlM_keeps bracketFields _
          (fun u s u' hu => lineBody_bracket _ _ _ _ _ _ hu) _ _ _ hs
      · cases hv; rfl
    · cases h2
      exact configure_bracket _ _ _

theorem buildPolygon_bracket (sh : Shaper) (style : FontStyle) (g : Polygon) (layer : String)
    (props : Properties) (w w' : World) (h : buildPolygon sh style g layer props w = .ok w') :
    bracketFields w' = bracketFields w := by
  unfold buildPolygon at h
  simp only at h
  split at h
  · cases h; rfl
  · obtain ⟨w2, h2, h3⟩ := map_eq_ok _ _ _ h
    subst h3
    rw [harvest_bracket, foldlM_keeps bracketFields _ _ _ _ _ h2, configure_bracket]
    intro v a v' hv
    split at hv
    · exact addLabelForTile_bracket _ _ _ _ _ _ hv
    · cases hv; rfl

/-- Registering one label per `"name"` property at a fixed anchor: with a processed tile the fold
returns, and the registry grows by exactly those requests, in order. -/
theorem nameFold_labels (sh : Shaper) (style : FontStyle) (anchor : Vec2 × Vec2) (t : TileID) :
    ∀ (props : List (String × String)) (w : World), w.processedTile = some t →
      ∃ w2, props.foldlM (fun acc prop =>
          if prop.1 = "name" then addLabelForTile sh style anchor prop.2 acc
          else .ok acc) w = .ok w2 ∧
        w2.labels = w.labels ++ (props.filter (fun p => decide (p.1 = "name"))).map
          (fun p => ⟨t, style.name, anchor, p.2⟩) := by
  intro props
  induction props with
  | nil =>
    intro w _
    exact ⟨w, rfl, by simp⟩
  | cons p props ih =>
    intro w ht
    rw [List.foldlM_cons]
    by_cases hp : p.1 = "name"
    · have hstep : addLabelForTile sh style anchor p.2 w =
          .ok (addLabel sh ⟨t, style.name, anchor, p.2⟩ w) := by
        unfold addLabelForTile
        rw [ht]
      have ht2 : (addLabel sh ⟨t, style.name, anchor, p.2⟩ w).processedTile = some t := by
        have := addLabel_bracket sh ⟨t, style.name, anchor, p.2⟩ w
        unfold bracketFields at this
        rw [← ht]
        exact congrArg Prod.fst this
      obtain ⟨w2, h2, hl⟩ := ih _ ht2
      refine ⟨w2, ?_, ?_⟩
      · simp only [hp, if_true, hstep]
        exact h2
      · rw [hl, addLabel_labels]
        simp [hp]
    · obtain ⟨w2, h2, hl⟩ := ih w ht
      refine ⟨w2, ?_, ?_⟩
      · simp only [hp, if_false]
        exact h2
      · rw [hl]
        simp [hp]


/-! ## The bracket invariant -/

theorem BracketInv_of_fields (w w' : World) (h : bracketFields w' = bracketFields w)
    (hw : BracketInv w) : BracketInv w' := by
  unfold bracketFields at h
  simp only [Prod.mk.injEq] at h
  obtain ⟨h1, h2, h3, h4⟩ := h
  unfold BracketInv getTextBuffer at *
  rw [h1, h2, h3, h4]
  exact hw

theorem prepare_ok (t : TileID) (w w' : World) (h : prepareDataProcessing t w = .ok w') :
    w.ctx.locked = false ∧ w'.processedTile = some t ∧ w'.ctx.locked = true ∧
      w'.ctx.currentBuffer = some w.buffers.length ∧
      w'.tileBuffers = (t, w.buffers.length) :: w.tileBuffers := by
  unfold prepareDataProcessing FontContext.lock genTextBuffer at h
  simp only at h
  cases hl : w.ctx.locked with
  | true => simp [hl] at h
  | false =>
    simp only [hl] at h
    cases h
    exact ⟨rfl, rfl, rfl, rfl, rfl⟩

theorem prepare_returns (t : TileID) (w : World) (h : w.ctx.locked = false) :
    ∃ w', prepareDataProcessing t w = .ok w' := by
  unfold prepareDataProcessing FontContext.lock genTextBuffer
  simp [h]

theorem finish_ok (t : TileID) (w w' : World) (h : finishDataProcessing t w = .ok w') :
    w'.processedTile = none ∧ w'.ctx.currentBuffer = none ∧ w'.ctx.locked = false := by
  unfold finishDataProcessing FontContext.unlock FontContext.useBuffer at h
  simp only at h
  cases hl : w.ctx.locked with
  | false => simp [hl] at h
  | true =>
    simp only [hl] at h
    cases h
    exact ⟨rfl, rfl, rfl⟩

theorem finish_returns (t : TileID) (w : World) (h : w.ctx.locked = true) :
    ∃ w', finishDataProcessing t w = .ok w' := by
  unfold finishDataProcessing FontContext.unlock FontContext.useBuffer
  simp [h]

theorem step_inv (sh : Shaper) (style : FontStyle) (op : Op) (w w' : World)
    (h : step sh style op w = .ok w') (hw : BracketInv w) : BracketInv w' := by
  cases op with
  | prepare t =>
    obtain ⟨_, h1, h2, h3, h4⟩ := prepare_ok t w w' h
    unfold BracketInv getTextBuffer
    refine ⟨by simp [h1, h2], by simp [h1, h3], ?_⟩
    intro t' ht'
    rw [h1] at ht'
    cases ht'
    rw [h3, h4]
    simp [List.lookup]
  | finish t =>
    obtain ⟨h1, h2, h3⟩ := finish_ok t w w' h
    unfold BracketInv
    refine ⟨by simp [h1, h3], by simp [h1, h2], ?_⟩
    intro t' ht'
    rw [h1] at ht'
    cases ht'
  | point p layer props => exact BracketInv_of_fields _ _ (buildPoint_bracket _ _ _ _ _ _ _ h) hw
  | line l layer props => exact BracketInv_of_fields _ _ (buildLine_bracket _ _ _ _ _ _ _ h) hw
  | polygon g layer props =>
    exact BracketInv_of_fields _ _ (buildPolygon_bracket sh style g layer props w w' h) hw

theorem run_inv (sh : Shaper) (style : FontStyle) :
    ∀ (ops : List Op) (w w' : World), run sh style ops w = .ok w' → BracketInv w →
      BracketInv w' := by
  intro ops
  induction ops with
  | nil =>
    intro w w' h hw
    cases h
    exact hw
  | cons op ops ih =>
    intro w w' h hw
    unfold run at h
    rw [List.foldlM_cons] at h
    obtain ⟨w1, h1, h2⟩ := bind_eq_ok _ _ _ h
    exact ih w1 w' h2 (step_inv sh style op w w1 h1 hw)

theorem start_inv (w : World) (hm : w.processedTile = none) (hb : w.ctx.currentBuffer = none)
    (hl : w.ctx.locked = false) : BracketInv w := by
  unfold BracketInv
  simp [hm, hb, hl]


/-! ## Facts about the float operations -/

set_option maxRecDepth 100000

theorem bitLengthGo_spec : ∀ (fuel n : Nat), n ≤ fuel → n < 2 ^ bitLengthGo fuel n := by
  intro fuel
  induction fuel with
  | zero =>
    intro n h
    have : n = 0 := by omega
    subst this
    simp [bitLengthGo]
  | succ fuel ih =>
    intro n h
    unfold bitLengthGo
    by_cases hn : n = 0
    · simp [hn]
    · simp only [hn, if_false]
      have h2 := ih (n / 2) (by omega)
      rw [pow_succ]
      omega

/-- A number is below two to the power of its number of digits. -/
theorem lt_two_pow_bitLength (n : Nat) : n < 2 ^ bitLength n :=
  bitLengthGo_spec n n (le_refl n)

theorem isqrtGo_spec (n : Nat) : ∀ (c r : Nat), r * r ≤ n → n < (r + 2 ^ c) * (r + 2 ^ c) →
    isqrtGo n c r * isqrtGo n c r ≤ n ∧ n < (isqrtGo n c r + 1) * (isqrtGo n c r + 1) := by
  intro c
  induction c with
  | zero =>
    intro r h1 h2
    simpa [isqrtGo] using And.intro h1 h2
  | succ c ih =>
    intro r h1 h2
    unfold isqrtGo
    by_cases ht : (r + 2 ^ c) * (r + 2 ^ c) ≤ n
    · simp only [ht, if_true]
      apply ih _ ht
      have : r + 2 ^ c + 2 ^ c = r + 2 ^ (c + 1) := by rw [pow_succ]; omega
      rw [this]
      exact h2
    · simp only [ht, if_false]
      exact ih _ h1 (by omega)

/-- The integer square root is the largest number whose square is at most `n`. -/
theorem isqrt_spec (n : Nat) : isqrt n * isqrt n ≤ n ∧ n < (isqrt n + 1) * (isqrt n + 1) := by
  unfold isqrt
  apply isqrtGo_spec n _ 0 (by simp)
  have h1 := lt_two_pow_bitLength n
  have h2 : 2 ^ bitLength n ≤ 2 ^ (bitLength n / 2 + 1) * 2 ^ (bitLength n / 2 + 1) := by
    rw [← pow_add]
    exact Nat.pow_le_pow_right (by norm_num) (by omega)
  simp only [zero_add]
  omega

theorem F32.zero_eq : (0 : F32) = .finite false 0 (-149) := rfl

theorem F32.one_eq : (1 : F32) = .finite false 8388608 (-23) := by decide

theorem F32.two_eq : (2 : F32) = .finite false 8388608 (-22) := by decide

theorem F32.toRat_zero : (0 : F32).toRat = 0 := by
  rw [F32.zero_eq]
  norm_num [F32.toRat]

theorem F32.toRat_one : (1 : F32).toRat = 1 := by
  rw [F32.one_eq]
  norm_num [F32.toRat]

theorem F32.toRat_two : (2 : F32).toRat = 2 := by
  rw [F32.two_eq]
  norm_num [F32.toRat]

theorem F32.one_third : (1 : F32) / 3 = .finite false 11184811 (-25) := by decide

theorem F32.sqrt_two : F32.sqrt 2 = .finite false 11863283 (-23) := by decide

theorem F32.absorbed : (16777216 : F32) + 1 + -(16777216 : F32) = 0 := by decide

theorem F32.zero_div_zero : (0 : F32) / F32.ofInt 0 = .nan := by decide

/-- Ties go to the even significand: `2^24 + 1` rounds down and `2^24 + 3` rounds up. -/
theorem F32.ties_to_even :
    (16777217 : F32) = 16777216 ∧ (16777219 : F32) = 16777220 ∧
      (16777216 : F32) + 1 = 16777216 := by decide

/-- The largest finite value is `2^128 - 2^104`; from `2^128 - 2^103` on a value rounds to an
infinity, and so does the product of two large values. -/
theorem F32.overflow :
    F32.ofNat (2 ^ 128 - 2 ^ 103 - 1) = .finite false 16777215 104 ∧
      F32.ofNat (2 ^ 128 - 2 ^ 103) = .inf false ∧
      F32.ofNat (2 ^ 100) * F32.ofNat (2 ^ 100) = .inf false ∧
      F32.inf false - F32.inf false = .nan := by decide

/-- Below `2^-126` values are subnormal, with the exponent held at `-149`; half the smallest one
rounds to zero and keeps its sign. -/
theorem F32.underflow :
    (1 : F32) / F32.ofNat (2 ^ 127) = .finite false 4194304 (-149) ∧
      F32.finite false 1 (-149) / 2 = .finite false 0 (-149) ∧
      F32.finite true 1 (-149) / 2 = .finite true 0 (-149) ∧
      F32.finite false 3 (-149) / 2 = .finite false 2 (-149) := by decide

/-- Signs: a difference of equal values is the positive zero, the sum of two negative zeros the
negative one, and neither zero is below the other. -/
theorem F32.zero_signs :
    (1 : F32) - 1 = .finite false 0 (-149) ∧
      -(0 : F32) + -(0 : F32) = .finite true 0 (-149) ∧
      F32.lt (-(0 : F32)) 0 = false ∧ F32.lt (-(1 : F32)) 0 = true ∧
      F32.lt .nan 0 = false ∧ F32.sqrt (-(1 : F32)) = .nan ∧ F32.sqrt 4 = 2 := by decide

theorem minLength_eq : minLength = 15 / 100 := by decide

theorem minLength_toRat : minLength.toRat = 5033165 / 33554432 := by
  norm_num [minLength, F32.toRat]

theorem signed_cast (s : Bool) (m : Nat) :
    ((F32.signed s m : Int) : ℚ) = (if s then -1 else 1) * (m : ℚ) := by
  unfold F32.signed
  cases s <;> simp

theorem scaled_cast (s : Bool) (m : Nat) (e lo : Int) (h : lo ≤ e) :
    ((F32.signed s m * 2 ^ (e - lo).toNat : Int) : ℚ) =
      (F32.finite s m e).toRat * ((2 : ℚ) ^ lo)⁻¹ := by
  have h2 : (2 : ℚ) ^ (e - lo).toNat = (2 : ℚ) ^ e * ((2 : ℚ) ^ lo)⁻¹ := by
    rw [← zpow_natCast, Int.toNat_of_nonneg (by omega), zpow_sub₀ (by norm_num)]
    rfl
  push_cast
  rw [signed_cast, h2]
  unfold F32.toRat
  ring

/-- The comparison of two finite floats is the comparison of the numbers they stand for. -/
theorem F32.lt_finite_iff (s : Bool) (m : Nat) (e : Int) (t : Bool) (k : Nat) (f : Int) :
    F32.lt (.finite s m e) (.finite t k f) = true ↔
      (F32.finite s m e).toRat < (F32.finite t k f).toRat := by
  unfold F32.lt
  simp only [decide_eq_true_eq]
  have hpos : (0 : ℚ) < ((2 : ℚ) ^ (min e f))⁻¹ := by positivity
  rw [← Int.cast_lt (R := ℚ), scaled_cast s m e _ (min_le_left e f),
    scaled_cast t k f _ (min_le_right e f)]
  exact mul_lt_mul_right hpos

/-! ## The claims -/

/-- C1: on a line of at least two points (its size fitting the `int` it is narrowed to) the loop of
`buildLine` returns, the start indices of the segments it examines are exactly
`0, skipOffset, 2 * skipOffset, ...` below `pointCount - 1`, in increasing order, with
`skipOffset = floor(pointCount / 2)`, each examined segment is `(p[i], p[i + 1])`, and these
are the segments `buildLine` feeds to its length test for every `"name"` property on layer
`"roads"` when a buffer is current; five points give the indices 0 and 2, two points give 0. -/
theorem buildLine_sampled_indices (line : Line) (h2 : 2 ≤ line.length)
    (hlen : line.length < 2 ^ 31) :
    skipOffsetOf line.length = ((line.length / 2 : Nat) : Int) ∧
    (∃ samples : List Sample,
      sampledSegments line = .ok samples ∧
      samples.map Sample.index = (steppedIndices line.length).map Int.ofNat ∧
      (samples.map Sample.index).Pairwise (fun i j => i < j) ∧
      (∀ s ∈ samples, ∃ k : Nat, s.index = (k : Int) ∧
        (line.get? k).map Vec3.toVec2 = some s.p1 ∧
        (line.get? (k + 1)).map Vec3.toVec2 = some s.p2) ∧
      (∀ (sh : Shaper) (style : FontStyle) (props : Properties) (w : World) (buf : Nat),
        w.ctx.currentBuffer = some buf →
        buildLine sh style line "roads" props w =
          (props.stringProps.foldlM (fun acc prop =>
            if prop.1 = "name" then
              samples.foldlM (fun acc1 s => lineBody sh style prop.2 s acc1) acc
            else .ok acc) (configure style (style.fontSize * style.pixelScale) w)).map
            (harvest buf))) ∧
    steppedIndices 5 = [0, 2] ∧ steppedIndices 2 = [0] := by
  refine ⟨skipOffsetOf_small _ hlen, ?_, by decide, by decide⟩
  obtain ⟨samples, hloop, hidx, hreads, _, _⟩ := sampleLoop_result line (by omega) hlen
  have hseg := sampledSegments_result line (by omega) hlen samples hloop
  refine ⟨samples, hseg, hidx, ?_, ?_, ?_⟩
  · rw [hidx]
    rcases Nat.lt_or_ge line.length 3 with h | h
    · have e : line.length = 2 := by omega
      rw [e, steppedIndices_two]
      simp
    · rw [steppedIndices_of_three _ h]
      have : (0 : Int) < ((line.length / 2 : Nat) : Int) := by
        have : 0 < line.length / 2 := by omega
        exact_mod_cast this
      simp only [List.map_cons, List.map_nil, List.pairwise_cons, List.mem_singleton,
        List.not_mem_nil, List.Pairwise.nil, and_true]
      refine ⟨?_, by intro a h; cases h⟩
      intro a ha
      subst ha
      exact this
  · intro s hs
    obtain ⟨k, hk, _, hp1, hp2⟩ := hreads s hs
    exact ⟨k, hk, hp1, hp2⟩
  · intro sh style props w buf hb
    unfold buildLine
    simp only [hb, hseg, if_true]
    rfl

theorem buildLine_sampled_indices_witness :
    2 ≤ line5.length ∧ line5.length < 2 ^ 31 ∧
      ∃ samples : List Sample, sampledSegments line5 = .ok samples ∧
        samples.map Sample.index = [0, 2] := by
  refine ⟨by decide, by decide, ?_⟩
  obtain ⟨samples, hs, hidx, _⟩ := (buildLine_sampled_indices line5 (by decide) (by decide)).2.1
  refine ⟨samples, hs, ?_⟩
  rw [hidx]
  decide


/-- C2 (the code at an empty line): the bound `size() - 1` wraps to the largest `size_t`, the
step is zero, so the loop is entered with `i = 0` and its first read `_line[0]` is outside the
line, whatever the fuel; `buildLine` on layer `"roads"` with a `"name"` property and a current
buffer therefore does not return a result for the empty line. On a line of at least one point
whose size fits an `int` the loop does return, with at most two segments. -/
theorem buildLine_empty_line :
    sizeMinusOne ([] : Line).length = 2 ^ 64 - 1 ∧
    skipOffsetOf ([] : Line).length = 0 ∧
    (∀ fuel, sampleLoop [] (skipOffsetOf ([] : Line).length) (fuel + 1) 0 =
      .error .outOfBounds) ∧
    buildLine shaper0 style0 [] "roads" ⟨[("name", "Main St")]⟩ world7 =
      .error .outOfBounds ∧
    (∀ line : Line, 1 ≤ line.length → line.length < 2 ^ 31 →
      ∃ samples, sampledSegments line = .ok samples ∧ samples.length ≤ 2) := by
  refine ⟨by decide, by decide, ?_, ?_, ?_⟩
  · intro fuel
    rw [sampleLoop]
    rfl
  · rfl
  · intro line h1 hlen
    obtain ⟨samples, hloop, _, _, hcount, _⟩ := sampleLoop_result line h1 hlen
    exact ⟨samples, sampledSegments_result line h1 hlen samples hloop, hcount⟩

/-- C3 (as the code has it): for a sampled segment `(p1, p2)`, with the processed tile set, the
loop body registers nothing when the `float` value `glm::length(p2 - p1)`, the rounded square
root of the rounded sum of the rounded squares of the rounded differences, compares below
`minLength`, and otherwise (NaN included) makes exactly one `addLabel` call, with the anchor
pair `(p1, p2)`; when that length is finite the comparison is that of its value with
`5033165 / 33554432`; the segment from (0,0) to (0.05,0) yields no request and the segment from
(0,0) to (0.2,0) yields one. -/
theorem lineBody_length_threshold (sh : Shaper) (style : FontStyle) (text : String)
    (s : Sample) (w : World) (t : TileID) (ht : w.processedTile = some t) :
    (s.p2.sub s.p1).length =
      F32.sqrt ((s.p2.x - s.p1.x) * (s.p2.x - s.p1.x) +
        (s.p2.y - s.p1.y) * (s.p2.y - s.p1.y)) ∧
    (F32.lt (s.p2.sub s.p1).length minLength = true →
      lineBody sh style text s w = .ok w) ∧
    (F32.lt (s.p2.sub s.p1).length minLength = false →
      lineBody sh style text s w = .ok (addLabel sh ⟨t, style.name, (s.p1, s.p2), text⟩ w) ∧
      (addLabel sh ⟨t, style.name, (s.p1, s.p2), text⟩ w).labels =
        w.labels ++ [⟨t, style.name, (s.p1, s.p2), text⟩]) ∧
    (∀ neg m e, (s.p2.sub s.p1).length = .finite neg m e →
      (F32.lt (s.p2.sub s.p1).length minLength = true ↔
        (s.p2.sub s.p1).length.toRat < 5033165 / 33554432)) ∧
    lineBody shaper0 style0 "Main St" ⟨0, ⟨0, 0⟩, ⟨1 / 20, 0⟩⟩ world7 = .ok world7 ∧
    (lineBody shaper0 style0 "Main St" ⟨0, ⟨0, 0⟩, ⟨1 / 5, 0⟩⟩ world7).map World.labels =
      .ok [⟨7, "labels", (⟨0, 0⟩, ⟨1 / 5, 0⟩), "Main St"⟩] := by
  refine ⟨rfl, ?_, ?_, ?_, ?_, ?_⟩
  · intro h
    unfold lineBody
    rw [h]
    rfl
  · intro h
    refine ⟨?_, addLabel_labels _ _ _⟩
    unfold lineBody addLabelForTile
    rw [h, ht]
    rfl
  · intro neg m e h
    rw [h, ← minLength_toRat]
    exact F32.lt_finite_iff neg m e false 10066330 (-26)
  · have h : F32.lt (Vec2.sub ⟨1 / 20, 0⟩ ⟨0, 0⟩).length minLength = true := by decide
    simp only [lineBody, h, if_true]
  · have h : F32.lt (Vec2.sub ⟨1 / 5, 0⟩ ⟨0, 0⟩).length minLength = false := by decide
    simp only [lineBody, h]
    rfl

theorem lineBody_length_threshold_witness :
    world7.processedTile = some 7 ∧
      F32.lt (Vec2.sub ⟨1 / 20, 0⟩ ⟨0, 0⟩).length minLength = true ∧
      lineBody shaper0 style0 "Main St" ⟨0, ⟨0, 0⟩, ⟨1 / 20, 0⟩⟩ world7 = .ok world7 :=
  ⟨rfl, by decide,
    (lineBody_length_threshold shaper0 style0 "Main St" ⟨0, ⟨0, 0⟩, ⟨1 / 20, 0⟩⟩ world7 7
      rfl).2.1 (by decide)⟩

/-- C3 (the claim fails): the point `nearBelow` is at Euclidean distance below 0.15 from the
origin, yet its `float` length is `minLength` and the loop body registers a label for the
segment; the point `nearAbove` is at Euclidean distance above 0.15 from the origin, yet its
`float` length is below `minLength` and the loop body skips the segment. -/
theorem lineBody_threshold_rounding :
    Real.sqrt ((exactLengthSq ⟨0, 0⟩ nearBelow : ℚ) : ℝ) < 0.15 ∧
    (Vec2.sub nearBelow ⟨0, 0⟩).length = minLength ∧
    (lineBody shaper0 style0 "Main St" ⟨0, ⟨0, 0⟩, nearBelow⟩ world7).map World.labels =
      .ok [⟨7, "labels", (⟨0, 0⟩, nearBelow), "Main St"⟩] ∧
    ¬ Real.sqrt ((exactLengthSq ⟨0, 0⟩ nearAbove : ℚ) : ℝ) < 0.15 ∧
    (Vec2.sub nearAbove ⟨0, 0⟩).length = .finite false 10066329 (-26) ∧
    lineBody shaper0 style0 "Main St" ⟨0, ⟨0, 0⟩, nearAbove⟩ world7 = .ok world7 := by
  refine ⟨?_, by decide, ?_, ?_, by decide, ?_⟩
  · rw [Real.sqrt_lt' (by norm_num)]
    have h : exactLengthSq ⟨0, 0⟩ nearBelow < (15 / 100) ^ 2 := by
      simp only [exactLengthSq, nearBelow, F32.toRat_zero]
      norm_num [F32.toRat]
    have h2 : ((exactLengthSq ⟨0, 0⟩ nearBelow : ℚ) : ℝ) < (((15 / 100) ^ 2 : ℚ) : ℝ) := by
      exact_mod_cast h
    push_cast at h2
    norm_num at h2 ⊢
    linarith
  · have h : F32.lt (Vec2.sub nearBelow ⟨0, 0⟩).length minLength = false := by decide
    simp only [lineBody, h]
    rfl
  · rw [Real.sqrt_lt' (by norm_num)]
    have h : (15 / 100) ^ 2 ≤ exactLengthSq ⟨0, 0⟩ nearAbove := by
      simp only [exactLengthSq, nearAbove, F32.toRat_zero]
      norm_num [F32.toRat]
    have h2 : ((((15 / 100) ^ 2 : ℚ)) : ℝ) ≤ ((exactLengthSq ⟨0, 0⟩ nearAbove : ℚ) : ℝ) := by
      exact_mod_cast h
    push_cast at h2
    norm_num at h2 ⊢
    linarith
  · have h : F32.lt (Vec2.sub nearAbove ⟨0, 0⟩).length minLength = true := by decide
    simp only [lineBody, h, if_true]

/-- With a processed tile and a current buffer `buildPolygon` returns, and the registry grows by one
request per `"name"` property, each anchored at the centroid twice. -/
theorem buildPolygon_labels (sh : Shaper) (style : FontStyle) (g : Polygon) (layer : String)
    (props : Properties) (w : World) (t : TileID) (buf : Nat)
    (ht : w.processedTile = some t) (hb : w.ctx.currentBuffer = some buf) :
    ∃ w', buildPolygon sh style g layer props w = .ok w' ∧
      w'.labels = w.labels ++
        (props.stringProps.filter (fun p => decide (p.1 = "name"))).map
          (fun p => ⟨t, style.name, ((centroidOf g).toVec2, (centroidOf g).toVec2), p.2⟩) := by
  have ht1 : (configure style (style.fontSize * style.pixelScale * (3 / 2)) w).processedTile =
      some t := by
    have := configure_bracket style (style.fontSize * style.pixelScale * (3 / 2)) w
    unfold bracketFields at this
    rw [← ht]
    exact congrArg Prod.fst this
  obtain ⟨w2, h2, hl⟩ := nameFold_labels sh style
    ((centroidOf g).toVec2, (centroidOf g).toVec2) t props.stringProps _ ht1
  refine ⟨harvest buf w2, ?_, ?_⟩
  · unfold buildPolygon
    simp only [hb, h2]
    rfl
  · rw [harvest_labels, hl, configure_labels]

/-- C4 (as the code has it): for a polygon with at least one vertex (and fewer than `2^31`, the
range of the `int` counter), with a processed tile and a current buffer, `buildPolygon` returns
and every request it registers (one per `"name"` property) has the anchor pair `(c, c)`, where
`c` is the `float` average of all vertices of all rings: the x and the y coordinates of every
vertex of every ring are added in order, each sum rounded, and the totals divided by the total
vertex count converted to `float`, that count not being zero. For the square ring
(0,0), (2,0), (2,2), (0,2) the anchor is (1,1), which is the exact average too; for the
triangle (0,0), (1,0), (0,1) it is the `float` nearest to 1/3 twice. -/
theorem buildPolygon_anchor (sh : Shaper) (style : FontStyle) (g : Polygon) (layer : String)
    (props : Properties) (w : World) (t : TileID) (buf : Nat)
    (hv : 0 < g.flatten.length) (hlen : g.flatten.length < 2 ^ 31)
    (ht : w.processedTile = some t) (hb : w.ctx.currentBuffer = some buf) :
    ((accumulate g).2 = (g.flatten.length : Int) ∧ (accumulate g).2 ≠ 0) ∧
    (centroidOf g).toVec2 = floatAverage g ∧
    (∃ w', buildPolygon sh style g layer props w = .ok w' ∧
      w'.labels = w.labels ++
        (props.stringProps.filter (fun p => decide (p.1 = "name"))).map
          (fun p => ⟨t, style.name, (floatAverage g, floatAverage g), p.2⟩)) ∧
    floatAverage square = ⟨1, 1⟩ ∧ vertexAverage square = (1, 1) ∧
    floatAverage triangle = ⟨1 / 3, 1 / 3⟩ := by
  have hn := accumulate_count g hlen
  refine ⟨⟨hn, by rw [hn]; exact_mod_cast (Nat.pos_iff_ne_zero.mp hv)⟩,
    centroidOf_eq_floatAverage g hlen, ?_, by decide, ?_, by decide⟩
  · obtain ⟨w', h1, h2⟩ := buildPolygon_labels sh style g layer props w t buf ht hb
    exact ⟨w', h1, by rw [h2, centroidOf_eq_floatAverage g hlen]⟩
  · simp only [vertexAverage, square, List.flatten_cons, List.flatten_nil, List.append_nil,
      List.map_cons, List.map_nil, List.sum_cons, List.sum_nil, List.length_cons,
      List.length_nil, F32.toRat_zero, F32.toRat_two]
    norm_num

theorem buildPolygon_anchor_witness :
    0 < square.flatten.length ∧ square.flatten.length < 2 ^ 31 ∧
      world7.processedTile = some 7 ∧ world7.ctx.currentBuffer = some 0 ∧
      ∃ w', buildPolygon shaper0 style0 square "landuse" ⟨[("name", "Park")]⟩ world7 = .ok w' ∧
        w'.labels = [⟨7, "labels", (⟨1, 1⟩, ⟨1, 1⟩), "Park"⟩] := by
  refine ⟨by decide, by decide, rfl, rfl, ?_⟩
  obtain ⟨_, _, ⟨w', h1, h2⟩, h3, _⟩ := buildPolygon_anchor shaper0 style0 square "landuse"
    ⟨[("name", "Park")]⟩ world7 7 0 (by decide) (by decide) rfl rfl
  refine ⟨w', h1, ?_⟩
  rw [h2, h3]
  rfl

/-- C4 (the claim fails): for the triangle ring (0,0), (1,0), (0,1) the exact average of the x
coordinates is 1/3, and the anchor `buildPolygon` registers has the x coordinate
`11184811 / 33554432`, the `float` nearest to it. -/
theorem buildPolygon_anchor_rounded :
    0 < triangle.flatten.length ∧
    (∃ w', buildPolygon shaper0 style0 triangle "water" ⟨[("name", "Lake")]⟩ world7 = .ok w' ∧
      w'.labels = [⟨7, "labels", ((centroidOf triangle).toVec2, (centroidOf triangle).toVec2),
        "Lake"⟩]) ∧
    (centroidOf triangle).toVec2 =
      ⟨.finite false 11184811 (-25), .finite false 11184811 (-25)⟩ ∧
    (centroidOf triangle).toVec2.x.toRat = 11184811 / 33554432 ∧
    (vertexAverage triangle).1 = 1 / 3 ∧
    (centroidOf triangle).toVec2.x.toRat ≠ (vertexAverage triangle).1 := by
  have hc : (centroidOf triangle).toVec2 =
      ⟨.finite false 11184811 (-25), .finite false 11184811 (-25)⟩ := by decide
  have hx : (centroidOf triangle).toVec2.x.toRat = 11184811 / 33554432 := by
    rw [hc]
    norm_num [F32.toRat]
  have ha : (vertexAverage triangle).1 = 1 / 3 := by
    simp only [vertexAverage, triangle, List.flatten_cons, List.flatten_nil, List.append_nil,
      List.map_cons, List.map_nil, List.sum_cons, List.sum_nil, List.length_cons,
      List.length_nil, F32.toRat_zero, F32.toRat_one]
    norm_num
  refine ⟨by decide, ?_, hc, hx, ha, ?_⟩
  · obtain ⟨w', h1, h2⟩ := buildPolygon_labels shaper0 style0 triangle "water"
      ⟨[("name", "Lake")]⟩ world7 7 0 rfl rfl
    exact ⟨w', h1, h2⟩
  · rw [hx, ha]
    norm_num

/-- C5 (the code at a polygon of an unrecognised layer): `buildPolygon` does not look at the layer
name, so on any layer, `"water"` included, the square with a `"name"` property gets a label
at its centroid and its shaped vertices are appended to the mesh; `buildPoint` off layer
`"pois"` and `buildLine` off layer `"roads"` return with the registry as it was. -/
theorem buildPolygon_ignores_layer :
    (∀ layer : String, ∃ w' : World,
      buildPolygon shaper0 style0 square layer ⟨[("name", "Lake")]⟩ world7 = .ok w' ∧
      w'.labels = [⟨7, "labels", (⟨1, 1⟩, ⟨1, 1⟩), "Lake"⟩] ∧
      w'.mesh = [([1, 1, 1, 1], 4)]) ∧
    (∀ (sh : Shaper) (style : FontStyle) (p : Point) (layer : String) (props : Properties)
      (w : World), layer ≠ "pois" →
      ∃ w', buildPoint sh style p layer props w = .ok w' ∧ w'.labels = w.labels) ∧
    (∀ (sh : Shaper) (style : FontStyle) (l : Line) (layer : String) (props : Properties)
      (w : World), layer ≠ "roads" →
      ∃ w', buildLine sh style l layer props w = .ok w' ∧ w'.labels = w.labels) := by
  refine ⟨?_, ?_, ?_⟩
  rotate_left
  · intro sh style p layer props w hne
    unfold buildPoint
    cases hb : w.ctx.currentBuffer with
    | none => exact ⟨w, rfl, rfl⟩
    | some buf =>
      refine ⟨harvest buf (configure style (style.fontSize * style.pixelScale) w), ?_, ?_⟩
      · simp only [hne, if_false]
        rfl
      · rw [harvest_labels, configure_labels]
  · intro sh style l layer props w hne
    unfold buildLine
    cases hb : w.ctx.currentBuffer with
    | none => exact ⟨w, rfl, rfl⟩
    | some buf =>
      refine ⟨harvest buf (configure style (style.fontSize * style.pixelScale) w), ?_, ?_⟩
      · simp only [hne, if_false]
        rfl
      · rw [harvest_labels, configure_labels]
  intro layer
  obtain ⟨w', h1, h2⟩ := buildPolygon_labels shaper0 style0 square layer
    ⟨[("name", "Lake")]⟩ world7 7 0 rfl rfl
  refine ⟨w', h1, ?_, ?_⟩
  · rw [h2]
    have : (centroidOf square).toVec2 = ⟨1, 1⟩ := by decide
    rw [this]
    rfl
  · have h3 : buildPolygon shaper0 style0 square layer ⟨[("name", "Lake")]⟩ world7 =
        .ok (harvest 0 (addLabel shaper0
          ⟨7, "labels", ((centroidOf square).toVec2, (centroidOf square).toVec2), "Lake"⟩
          (configure style0 (style0.fontSize * style0.pixelScale * (3 / 2)) world7))) := rfl
    rw [h3] at h1
    cases h1
    rfl

/-- C6: when the font context has no current buffer, each of `buildPoint`, `buildLine` and
`buildPolygon` returns with the whole state as it was: the mesh, the registered labels and the
font and signed-distance-field state of the font context included. -/
theorem builders_without_buffer (sh : Shaper) (style : FontStyle) (p : Point) (l : Line)
    (g : Polygon) (layer : String) (props : Properties) (w : World)
    (h : w.ctx.currentBuffer = none) :
    buildPoint sh style p layer props w = .ok w ∧
    buildLine sh style l layer props w = .ok w ∧
    buildPolygon sh style g layer props w = .ok w := by
  refine ⟨?_, ?_, ?_⟩
  · unfold buildPoint; rw [h]
  · unfold buildLine; rw [h]
  · unfold buildPolygon; simp only [h]

theorem builders_without_buffer_witness :
    World.init.ctx.currentBuffer = none ∧
      buildPoint shaper0 style0 ⟨1, 2, 0⟩ "pois" ⟨[("name", "Cafe")]⟩ World.init =
        .ok World.init ∧
      buildLine shaper0 style0 line5 "roads" ⟨[("name", "Main St")]⟩ World.init =
        .ok World.init ∧
      buildPolygon shaper0 style0 square "water" ⟨[("name", "Lake")]⟩ World.init =
        .ok World.init :=
  ⟨rfl, builders_without_buffer shaper0 style0 ⟨1, 2, 0⟩ line5 square "pois"
      ⟨[("name", "Cafe")]⟩ World.init rfl |>.1,
    builders_without_buffer shaper0 style0 ⟨1, 2, 0⟩ line5 square "roads"
      ⟨[("name", "Main St")]⟩ World.init rfl |>.2.1,
    builders_without_buffer shaper0 style0 ⟨1, 2, 0⟩ line5 square "water"
      ⟨[("name", "Lake")]⟩ World.init rfl |>.2.2⟩


/-- C7: in every state reached from a state with the marker null, no current buffer and the lock
free by a sequence of `prepareDataProcessing`, build and `finishDataProcessing` calls that ran
through, the marker is non-null exactly when the lock is held and exactly when a buffer is
current, and that buffer is the one attached to the marked tile; `finishDataProcessing`,
whenever it returns, leaves the marker null, no current buffer and the lock released; and it
does return from every such state in which the lock is held, whatever build calls came before,
just as `prepareDataProcessing` returns whenever the lock is free. -/
theorem bracket_invariant (sh : Shaper) (style : FontStyle) (ops : List Op) (w0 w : World)
    (hm : w0.processedTile = none) (hb : w0.ctx.currentBuffer = none)
    (hl : w0.ctx.locked = false) (h : run sh style ops w0 = .ok w) :
    ((w.processedTile ≠ none ↔ w.ctx.locked = true) ∧
      (w.processedTile ≠ none ↔ w.ctx.currentBuffer ≠ none) ∧
      (∀ t, w.processedTile = some t → w.ctx.currentBuffer = getTextBuffer t w)) ∧
    (∀ t w', finishDataProcessing t w = .ok w' →
      w'.processedTile = none ∧ w'.ctx.currentBuffer = none ∧ w'.ctx.locked = false) ∧
    (w.ctx.locked = true → ∀ t, ∃ w', finishDataProcessing t w = .ok w' ∧
      w'.processedTile = none ∧ w'.ctx.currentBuffer = none ∧ w'.ctx.locked = false) ∧
    (w.ctx.locked = false → ∀ t, ∃ w', prepareDataProcessing t w = .ok w' ∧
      w'.processedTile = some t ∧ w'.ctx.locked = true ∧
      w'.ctx.currentBuffer = getTextBuffer t w' ∧ w'.ctx.currentBuffer ≠ none) := by
  refine ⟨run_inv sh style ops w0 w h (start_inv w0 hm hb hl), ?_, ?_, ?_⟩
  · intro t w' hf
    exact finish_ok t w w' hf
  · intro hheld t
    obtain ⟨w', hf⟩ := finish_returns t w hheld
    exact ⟨w', hf, finish_ok t w w' hf⟩
  · intro hfree t
    obtain ⟨w', hp⟩ := prepare_returns t w hfree
    obtain ⟨_, h1, h2, h3, h4⟩ := prepare_ok t w w' hp
    refine ⟨w', hp, h1, h2, ?_, by simp [h3]⟩
    unfold getTextBuffer
    rw [h3, h4]
    simp [List.lookup]

theorem bracket_invariant_witness :
    World.init.processedTile = none ∧ World.init.ctx.currentBuffer = none ∧
      World.init.ctx.locked = false ∧
      run shaper0 style0 [.prepare 7, .point ⟨1, 2, 0⟩ "pois" ⟨[("name", "Cafe")]⟩] World.init =
        .ok worldCafe ∧
      (worldCafe.processedTile ≠ none ↔ worldCafe.ctx.locked = true) ∧
      (worldCafe.processedTile ≠ none ↔ worldCafe.ctx.currentBuffer ≠ none) ∧
      (∀ t, worldCafe.processedTile = some t →
        worldCafe.ctx.currentBuffer = getTextBuffer t worldCafe) :=
  ⟨rfl, rfl, rfl, rfl, (bracket_invariant shaper0 style0
    [.prepare 7, .point ⟨1, 2, 0⟩ "pois" ⟨[("name", "Cafe")]⟩] World.init worldCafe
    rfl rfl rfl rfl).1⟩

/-- C8 (as the code has it): after `setupFrame` and then `teardown`, blending is off and depth
testing is on whatever they were before, so the two flags are back at their earlier values
exactly when blending was off and depth testing on before `setupFrame`; the blend function
stays the one `setupFrame` chose. -/
theorem setupFrame_teardown_defaults (v : FrameInput) (f : Frame) :
    (teardown (setupFrame v f)).gl.blend = false ∧
    (teardown (setupFrame v f)).gl.depthTest = true ∧
    (teardown (setupFrame v f)).gl.blendFunc = (GL_SRC_ALPHA, GL_ONE_MINUS_SRC_ALPHA) ∧
    (((teardown (setupFrame v f)).gl.blend = f.gl.blend ∧
        (teardown (setupFrame v f)).gl.depthTest = f.gl.depthTest) ↔
      (f.gl.blend = false ∧ f.gl.depthTest = true)) := by
  refine ⟨rfl, rfl, rfl, ?_⟩
  constructor
  · rintro ⟨h1, h2⟩
    exact ⟨h1.symm.trans rfl, h2.symm.trans rfl⟩
  · rintro ⟨h1, h2⟩
    exact ⟨h1.symm ▸ rfl, h2.symm ▸ rfl⟩

/-- C8 (the claim fails): from a state with blending on and depth testing off, `setupFrame`
followed by `teardown` ends with blending off and depth testing on, not with the earlier
values. -/
theorem setupFrame_teardown_not_restored :
    frame0.gl.blend = true ∧ frame0.gl.depthTest = false ∧
      (teardown (setupFrame view0 frame0)).gl.blend = false ∧
      (teardown (setupFrame view0 frame0)).gl.depthTest = true ∧
      ¬ ((teardown (setupFrame view0 frame0)).gl.blend = frame0.gl.blend ∧
        (teardown (setupFrame view0 frame0)).gl.depthTest = frame0.gl.depthTest) := by
  refine ⟨rfl, rfl, rfl, rfl, ?_⟩
  rintro ⟨h, _⟩
  exact absurd h (by decide)

/-- C9 (the code at any render state): `saveState` followed by `popState`, and `drawLine` as a
whole, bind the earlier vertex buffer again but leave depth testing off; from a state with
depth testing on the flag is therefore not what it was. -/
theorem popState_keeps_depthTest_off (s : Primitives) (rs : RenderState) :
    (popState (saveState s rs).1 (saveState s rs).2).2.vertexBuffer = rs.vertexBuffer ∧
    (popState (saveState s rs).1 (saveState s rs).2).2.depthTest = false ∧
    (drawLine s rs).2.vertexBuffer = rs.vertexBuffer ∧
    (drawLine s rs).2.depthTest = false ∧
    renderState0.depthTest = true ∧
    (drawLine primitives0 renderState0).2.depthTest ≠ renderState0.depthTest := by
  refine ⟨rfl, rfl, rfl, rfl, rfl, by decide⟩

/-- C10: on a line of at least one point (its size fitting the `int` it is narrowed to) the loop of
`buildLine` terminates, with any fuel from three up and with the fuel `buildLine` gives it; the
bound `size() - 1` does not wrap, the step is `floor(pointCount / 2)` and is at least one
whenever the loop is entered, and every index `i` it reads satisfies `0 ≤ i` and
`i + 1 < pointCount`. Without a point the bound wraps to the largest `size_t`, the step is zero
and the loop is entered, reading outside the line. -/
theorem buildLine_loop_terminates (line : Line) (h1 : 1 ≤ line.length)
    (hlen : line.length < 2 ^ 31) :
    sizeMinusOne line.length = line.length - 1 ∧
    skipOffsetOf line.length = ((line.length / 2 : Nat) : Int) ∧
    (∃ samples : List Sample,
      (∀ fuel, 3 ≤ fuel → sampleLoop line (skipOffsetOf line.length) fuel 0 = .ok samples) ∧
      sampledSegments line = .ok samples ∧
      (∀ s ∈ samples, 0 ≤ s.index ∧ s.index + 1 < (line.length : Int)) ∧
      (samples ≠ [] → 1 ≤ skipOffsetOf line.length)) ∧
    (sizeMinusOne 0 = 2 ^ 64 - 1 ∧ skipOffsetOf 0 = 0 ∧
      ∀ fuel, sampleLoop [] (skipOffsetOf 0) (fuel + 1) 0 = .error .outOfBounds) := by
  refine ⟨sizeMinusOne_pos _ h1 (by omega), skipOffsetOf_small _ hlen, ?_, by decide, by decide, ?_⟩
  · obtain ⟨samples, hloop, _, hreads, _, hstep⟩ := sampleLoop_result line h1 hlen
    refine ⟨samples, ?_, sampledSegments_result line h1 hlen samples hloop, ?_, hstep⟩
    · intro fuel hf
      obtain ⟨m, rfl⟩ : ∃ m, fuel = m + 3 := ⟨fuel - 3, by omega⟩
      exact hloop m
    · intro s hs
      obtain ⟨k, hk, hlt, _, _⟩ := hreads s hs
      rw [hk]
      constructor
      · exact Int.ofNat_nonneg k
      · exact_mod_cast hlt
  · intro fuel
    rw [sampleLoop]
    rfl

theorem buildLine_loop_terminates_witness :
    1 ≤ line5.length ∧ line5.length < 2 ^ 31 ∧
      ∃ samples : List Sample, sampledSegments line5 = .ok samples ∧
        ∀ s ∈ samples, 0 ≤ s.index ∧ s.index + 1 < (line5.length : Int) := by
  refine ⟨by decide, by decide, ?_⟩
  obtain ⟨samples, _, hs, hb, _⟩ := (buildLine_loop_terminates line5 (by decide) (by decide)).2.2.1
  exact ⟨samples, hs, hb⟩

end Tangram
